import Mathlib

/-!
Verification of the pine process supervisor (github.com/mpoegel/pine).

This file gives a shallow embedding of the core of the repository:
the config loader (pkg/tree/config.go), the per-service supervisor
state machine (pkg/tree/tree.go), the registry operations of the
daemon (pkg/pine/daemon.go), and the log-pruning policy
(pkg/tree/logger.go).  Pure Go functions become Lean functions;
the stateful run loop becomes an explicit state-passing function
driven by a list of environment events (one per suspension point);
Go channels become a record of a one-slot buffer plus a closed flag,
with send-on-closed and close-of-closed modelled as panics via Except.
-/

namespace Pine

/-! Section: Config loader (pkg/tree/config.go) -/

/-- RestartLevel from config.go: the three restart policies. -/
inductive RestartLevel where
  | alwaysRestart
  | neverRestart
  | limitedRestart
deriving DecidableEq, Repr

/-- Config from config.go.  Durations are nanoseconds (Go time.Duration),
integers are Go int, modelled as unbounded Int (no value in this code path
can reach the 64-bit overflow boundary before the functions return). -/
structure Config where
  name : String
  originFile : String
  command : String
  user : String
  environmentFile : String
  logFile : String
  maxLogAge : Int
  restart : RestartLevel
  restartAttempts : Int
  restartDelay : Int
deriving DecidableEq, Repr

/-- Character cut set of strings.Trim(s, " \t") used by LoadConfig. -/
def isCutChar (c : Char) : Bool :=
  c = ' ' || c = '\t'

/-- Models Go strings.Trim(s, " \t"): remove leading and trailing spaces and tabs. -/
def goTrim (s : String) : String :=
  String.mk (((s.data.dropWhile isCutChar).reverse.dropWhile isCutChar).reverse)

/-- Split a character list at the first space, as strings.SplitN(line, " ", 2):
none when the line has no space (SplitN returns a single part). -/
def breakAtSpace : List Char → Option (List Char × List Char)
  | [] => none
  | c :: rest =>
    if c = ' ' then some ([], rest)
    else match breakAtSpace rest with
      | none => none
      | some (a, b) => some (c :: a, b)

/-- Digits of a Go integer literal: nonempty, all decimal digits. -/
def digitsValue : List Char → Option Nat
  | [] => none
  | l =>
    if l.all Char.isDigit then
      some (l.foldl (fun acc c => 10 * acc + (c.toNat - 48)) 0)
    else none

/-- Models Go strconv.Atoi: optional sign followed by decimal digits.
The int64 overflow error of Atoi is not modelled; no claim depends on it. -/
def goAtoi (s : String) : Option Int :=
  match s.data with
  | '+' :: rest => (digitsValue rest).map Int.ofNat
  | '-' :: rest => (digitsValue rest).map (fun n => -(n : Int))
  | l => (digitsValue l).map Int.ofNat

/-- Nanoseconds per unit for the duration forms named by the spec (for
example 3s, 500ms).  Models the unit table of Go time.ParseDuration. -/
def durationUnit : List Char → Option Int
  | ['n', 's'] => some 1
  | ['u', 's'] => some 1000
  | ['m', 's'] => some 1000000
  | ['s'] => some 1000000000
  | ['m'] => some 60000000000
  | ['h'] => some 3600000000000
  | _ => none

/-- Leading decimal digits of a list, with the remainder. -/
def spanDigits : List Char → List Char × List Char
  | [] => ([], [])
  | c :: rest =>
    if c.isDigit then
      let (ds, tl) := spanDigits rest
      (c :: ds, tl)
    else ([], c :: rest)

/-- Models Go time.ParseDuration restricted to a single unsigned
integer-and-unit group such as 3s or 500ms, the forms the configs in this
repository use; returns nanoseconds. -/
def goParseDuration (s : String) : Option Int :=
  let (ds, tl) := spanDigits s.data
  match digitsValue ds, durationUnit tl with
  | some n, some u => some ((n : Int) * u)
  | _, _ => none

/-- Models Go path/filepath.Base for the paths this code sees: the part of
the path after the final slash. -/
def goBase (p : String) : String :=
  String.mk ((p.data.reverse.takeWhile (fun c => c ≠ '/')).reverse)

/-- Suffix after the final dot of a list of characters, provided no slash
follows that dot; none otherwise.  Models Go path/filepath.Ext (which scans
backwards from the end, stopping at a separator), with the leading dot
stripped. -/
def lastDotSuffix : List Char → Option (List Char)
  | [] => none
  | c :: rest =>
    match lastDotSuffix rest with
    | some s => some s
    | none =>
      if c = '.' && !rest.contains '/' then some rest else none

/-- Models Go path/filepath.Ext as a String function (result includes the
leading dot, empty when there is no dot in the final path element). -/
def goExt (p : String) : String :=
  match lastDotSuffix p.data with
  | some s => String.mk ('.' :: s)
  | none => ""

/-- Models strings.TrimSuffix. -/
def goTrimSuffix (s suffix : String) : String :=
  if suffix.data.isSuffixOf s.data then
    String.mk (s.data.take (s.data.length - suffix.data.length))
  else s

/-- ValidateConfig from config.go: fill defaults (name from the file stem,
log file from the name) and reject an empty command or a max log age
below one. -/
def ValidateConfig (cfg : Config) : Except String Config :=
  if cfg.originFile.data.length = 0 then .error "missing origin file"
  else if cfg.command.data.length = 0 then .error "missing command"
  else
    let cfg := if cfg.name.data.length = 0 then
        { cfg with name := goTrimSuffix (goBase cfg.originFile) (goExt cfg.originFile) }
      else cfg
    let cfg := if cfg.logFile.data.length = 0 then
        { cfg with logFile := "/var/log/homelab/" ++ cfg.name ++ ".log" }
      else cfg
    if cfg.maxLogAge < 1 then .error "invalid max log age"
    else .ok cfg

/-- One line of LoadConfig's scan loop: the switch over the recognized
parameter names.  Note the User branch: as in config.go line 75-76, the
value of a User line is assigned to the Command field, and the User field
is left untouched. -/
def applyConfigLine (cfg : Config) (lineNum : Nat) (line : String) : Except String Config :=
  if line.data.length = 0 || line.data.headD ' ' = '#' then .ok cfg
  else match breakAtSpace line.data with
    | none => .error ("invalid config syntax on line " ++ toString lineNum)
    | some (p, v) =>
      let param := goTrim (String.mk p)
      let value := goTrim (String.mk v)
      if param = "Name" then .ok { cfg with name := value }
      else if param = "Command" then .ok { cfg with command := value }
      else if param = "User" then .ok { cfg with command := value }
      else if param = "EnvironmentFile" then .ok { cfg with environmentFile := value }
      else if param = "LogFile" then .ok { cfg with logFile := value }
      else if param = "MaxLogAge" then
        match goAtoi value with
        | some n => .ok { cfg with maxLogAge := n }
        | none => .error "invalid max log age"
      else if param = "Restart" then
        if value = "always" then .ok { cfg with restart := .alwaysRestart }
        else if value = "never" then .ok { cfg with restart := .neverRestart }
        else if value = "limited" then .ok { cfg with restart := .limitedRestart }
        else .error ("unknown restart value on line " ++ toString lineNum)
      else if param = "RestartAttempts" then
        match goAtoi value with
        | some n => .ok { cfg with restartAttempts := n }
        | none => .error ("invalid restart attempts on line " ++ toString lineNum)
      else if param = "RestartDelay" then
        match goParseDuration value with
        | some d => .ok { cfg with restartDelay := d }
        | none => .error ("invalid restart delay on line " ++ toString lineNum)
      else .error ("unknown parameter on line " ++ toString lineNum)

/-- Scan loop of LoadConfig over the remaining lines. -/
def applyConfigLines (cfg : Config) (lineNum : Nat) : List String → Except String Config
  | [] => .ok cfg
  | line :: rest =>
    match applyConfigLine cfg (lineNum + 1) line with
    | .error e => .error e
    | .ok cfg => applyConfigLines cfg (lineNum + 1) rest

/-- LoadConfig from config.go, over the list of lines of the file: start
from the defaults (User op, MaxLogAge 7, Restart never, RestartAttempts 3,
RestartDelay 3s), apply each line, then validate. -/
def loadConfigLines (filename : String) (lines : List String) : Except String Config :=
  let cfg : Config :=
    { name := ""
      originFile := filename
      command := ""
      user := "op"
      environmentFile := ""
      logFile := ""
      maxLogAge := 7
      restart := .neverRestart
      restartAttempts := 3
      restartDelay := 3000000000 }
  match applyConfigLines cfg 0 lines with
  | .error e => .error e
  | .ok cfg => ValidateConfig cfg

/-! Section: Go channel model for the stop signal (tree.go)

The stop channel is make(chan bool, 1): a one-slot buffer.  The only value
ever sent is true, so the buffer is modelled as a Bool flag.  Sending on a
closed channel and closing a closed channel panic in Go; those panics are
modelled as Except errors of type GoPanic. -/

/-- Go runtime panics this code can raise through its stop channel. -/
inductive GoPanic where
  | sendOnClosedChannel
  | closeOfClosedChannel
deriving DecidableEq, Repr

/-- State of the one-slot stop channel: whether a value is buffered and
whether the channel has been closed. -/
structure StopChan where
  buffered : Bool
  closed : Bool
deriving DecidableEq, Repr

/-- A select with a send case and a default branch, as in Stop and Restart:
panics if the channel is closed; otherwise stores the value when the slot
is free and falls through to default (coalescing) when it is full. -/
def chanTrySend (c : StopChan) : Except GoPanic StopChan :=
  if c.closed then .error .sendOnClosedChannel
  else if c.buffered then .ok c
  else .ok { c with buffered := true }

/-- Models close(ch): panics when the channel is already closed. -/
def chanClose (c : StopChan) : Except GoPanic StopChan :=
  if c.closed then .error .closeOfClosedChannel
  else .ok { c with closed := true }

/-! Section: Supervisor state machine (pkg/tree/tree.go) -/

/-- State from status.go. -/
inductive State where
  | stopped
  | restarting
  | running
deriving DecidableEq, Repr

/-- Volatile state of a TreeImpl guarded by stateMu, plus the stop channel.
Timestamps are abstract instants (Int). -/
structure TreeState where
  fullStop : Bool
  runCount : Int
  currState : State
  startedAt : Int
  lastChangedAt : Int
  stopChan : StopChan
deriving DecidableEq, Repr

/-- Initial volatile state built by NewTree: stopped, counters zero, empty
open channel; lastChangedAt is the creation instant. -/
def newTreeState (createdAt : Int) : TreeState :=
  { fullStop := false
    runCount := 0
    currState := .stopped
    startedAt := 0
    lastChangedAt := createdAt
    stopChan := { buffered := false, closed := false } }

/-- Environment events observed by one iteration of the run loop, one field
per suspension point of Start: the pre-start delay (a stop request or a
root-context cancellation may arrive there) and the child-exit wait (a stop
request may arrive there).  A restart request only refills the one-slot
channel, which the wait drains again, so it needs no separate field. -/
structure IterEnv where
  stopDuringDelay : Bool
  cancelDuringDelay : Bool
  stopDuringWait : Bool
deriving DecidableEq, Repr

/-- An environment in which no external request arrives. -/
def quietEnv : IterEnv := { stopDuringDelay := false, cancelDuringDelay := false, stopDuringWait := false }

/-- Effect of Stop(ctx) on the volatile state: set fullStop, then a
non-blocking coalescing send of the stop signal (tree.go lines 231-244). -/
def StopM (s : TreeState) : Except GoPanic TreeState :=
  let s := { s with fullStop := true }
  match chanTrySend s.stopChan with
  | .error p => .error p
  | .ok c => .ok { s with stopChan := c }

/-- Effect of Restart(ctx): a non-blocking coalescing send of the stop
signal without touching fullStop (tree.go lines 269-275). -/
def RestartM (s : TreeState) : Except GoPanic TreeState :=
  match chanTrySend s.stopChan with
  | .error p => .error p
  | .ok c => .ok { s with stopChan := c }

/-- Effect of Destroy(ctx): Stop, then close the stop channel
(tree.go lines 277-281). -/
def DestroyM (s : TreeState) : Except GoPanic TreeState :=
  match StopM s with
  | .error p => .error p
  | .ok s =>
    match chanClose s.stopChan with
    | .error p => .error p
    | .ok c => .ok { s with stopChan := c }

/-- One iteration of the for loop in Start (tree.go lines 76-123) together
with the state updates of the run goroutine it launches (lines 126-165),
sequentialized; external requests are injected at the two suspension
points recorded in IterEnv.  Returns the state, the number of launch
attempts of this iteration (run increments runCount exactly once per
iteration, whether or not the exec itself succeeds), and whether Start
returned. -/
def startIter (mode : RestartLevel) (attempts : Int) (now : Int) (e : IterEnv)
    (s : TreeState) : TreeState × Nat × Bool :=
  if s.fullStop then ({ s with currState := .stopped }, 0, true)
  else
    let s := { s with currState := .restarting }
    if s.runCount > 0 && e.cancelDuringDelay then
      (s, 0, true)
    else
      let s := if s.runCount > 0 && e.stopDuringDelay then
          { s with fullStop := true, stopChan := { s.stopChan with buffered := true } }
        else s
      let s := { s with runCount := s.runCount + 1 }
      let s := { s with startedAt := now, currState := .running }
      let s := if e.stopDuringWait then { s with fullStop := true } else s
      let s := { s with stopChan := { s.stopChan with buffered := false } }
      let shouldStop := s.fullStop || mode = RestartLevel.neverRestart ||
        (mode = RestartLevel.limitedRestart && s.runCount ≥ attempts)
      if shouldStop then ({ s with currState := .stopped }, 1, true)
      else (s, 1, false)

/-- The for loop of Start, driven by one IterEnv per iteration; when the
environment list is exhausted the loop is still in progress and the state
observed at that point is returned.  The Nat is the total number of launch
attempts. -/
def startLoop (mode : RestartLevel) (attempts : Int) (now : Int) :
    List IterEnv → TreeState → TreeState × Nat
  | [], s => (s, 0)
  | e :: rest, s =>
    match startIter mode attempts now e s with
    | (s, n, true) => (s, n)
    | (s, n, false) =>
      let (s, m) := startLoop mode attempts now rest s
      (s, n + m)

/-- Start (tree.go lines 61-124): read the policy fields, unconditionally
reset fullStop and runCount (lines 71-74), then enter the loop. -/
def treeStart (mode : RestartLevel) (attempts : Int) (now : Int)
    (envs : List IterEnv) (s : TreeState) : TreeState × Nat :=
  startLoop mode attempts now envs { s with fullStop := false, runCount := 0 }

/-! Section: Registry operations of the daemon (pkg/pine/daemon.go) -/

/-- A registry entry: the record's config and its volatile state. -/
structure TreeRec where
  cfg : Config
  st : TreeState
deriving DecidableEq, Repr

/-- Lookup in the trees map, modelled as an association list with unique
keys. -/
def lookupTree : List (String × TreeRec) → String → Option TreeRec
  | [], _ => none
  | (k, v) :: rest, n => if k = n then some v else lookupTree rest n

/-- Replace the entry for a name. -/
def updateTree : List (String × TreeRec) → String → TreeRec → List (String × TreeRec)
  | [], _, _ => []
  | (k, v) :: rest, n, t =>
    if k = n then (k, t) :: rest else (k, v) :: updateTree rest n t

/-- Remove the entry for a name (delete(d.trees, name)). -/
def dropTree : List (String × TreeRec) → String → List (String × TreeRec)
  | [], _ => []
  | (k, v) :: rest, n =>
    if k = n then rest else (k, v) :: dropTree rest n

/-- RestartTree (daemon.go lines 245-257): unknown name is an error;
a record whose config has Restart never is an error before any signal is
delivered; otherwise Restart is forwarded to the record.  The result pairs
the error message (if any) with the registry afterwards. -/
def RestartTreeM (reg : List (String × TreeRec)) (name : String) :
    Except GoPanic (Option String × List (String × TreeRec)) :=
  match lookupTree reg name with
  | none => .ok (some "tree not found", reg)
  | some t =>
    if t.cfg.restart = RestartLevel.neverRestart then
      .ok (some "cannot restart", reg)
    else
      match RestartM t.st with
      | .error p => .error p
      | .ok st => .ok (none, updateTree reg name { t with st := st })

/-- The file system visible to LoadConfig, as a map from file name to the
list of lines of the file; none models a file that os.Open cannot open
(in particular a file that has been removed). -/
def loadConfigFS (fs : String → Option (List String)) (filename : String) :
    Except String Config :=
  match fs filename with
  | none => .error "open failed"
  | some lines => loadConfigLines filename lines

/-- removeTree (daemon.go lines 185-205): reload the config of the named
file to recover the tree name; when loading fails the removal is logged
and skipped and the registry is untouched; otherwise the matching record
is destroyed and dropped.  The Bool reports whether a record was
destroyed. -/
def removeTreeM (fs : String → Option (List String))
    (reg : List (String × TreeRec)) (filename : String) :
    List (String × TreeRec) × Bool :=
  match loadConfigFS fs filename with
  | .error _ => (reg, false)
  | .ok cfg =>
    match lookupTree reg cfg.name with
    | none => (reg, false)
    | some _ => (dropTree reg cfg.name, true)

/-! Section: Log pruning (pkg/tree/logger.go) -/

/-- Directory entry as seen by removeOldFiles: name, os.Stat directory flag
and size. -/
structure FileInfo where
  fname : String
  isDir : Bool
  size : Nat
deriving DecidableEq, Repr

/-- Pattern prefix test on character lists. -/
def listStartsWith : List Char → List Char → Bool
  | [], _ => true
  | _ :: _, [] => false
  | a :: as, b :: bs => a = b && listStartsWith as bs

/-- Models filepath.Glob matching for the pattern path ++ star dot star
(logger.go line 91): a star matches any possibly-empty run of
non-separator characters, so a name matches exactly when it extends path
by a slash-free remainder that contains a dot. -/
def globMatch (path name : String) : Bool :=
  listStartsWith path.data name.data &&
    (let rest := name.data.drop path.data.length
     rest.contains '.' && !rest.contains '/')

/-- Leap year rule of the Gregorian calendar, as Go time uses it. -/
def isLeap (y : Nat) : Bool :=
  y % 4 = 0 && (y % 100 ≠ 0 || y % 400 = 0)

/-- Length of a month. -/
def daysInMonth (y M : Nat) : Nat :=
  if M = 2 then (if isLeap y then 29 else 28)
  else if M = 4 || M = 6 || M = 9 || M = 11 then 30
  else 31

/-- Days in the months of year y strictly before month M (M counted
from 1). -/
def daysBeforeMonth (y M : Nat) : Nat :=
  (List.range 12).foldl (fun acc m => if m + 1 < M then acc + daysInMonth y (m + 1) else acc) 0

/-- Leap years among 0, ..., y-1. -/
def leapsBefore (y : Nat) : Nat :=
  (y + 3) / 4 - (y + 99) / 100 + (y + 399) / 400

/-- A wall-clock timestamp parsed from a rotated-log suffix. -/
structure DateTime where
  year : Nat
  month : Nat
  day : Nat
  hour : Nat
  minute : Nat
  second : Nat
deriving DecidableEq, Repr

/-- Seconds since the start of year 0 of a timestamp; monotone encoding
used for the age comparison ts.Add(maxAge).Before(now). -/
def dtToSecs (dt : DateTime) : Nat :=
  ((365 * dt.year + leapsBefore dt.year + daysBeforeMonth dt.year dt.month + (dt.day - 1)) * 24
      + dt.hour) * 3600 + dt.minute * 60 + dt.second

/-- Numeric value of a decimal digit character, none otherwise. -/
def digitVal (c : Char) : Option Nat :=
  if c.isDigit then some (c.toNat - 48) else none

/-- Read two digits from the front of a list. -/
def read2 : List Char → Option (Nat × List Char)
  | a :: b :: rest =>
    match digitVal a, digitVal b with
    | some x, some y => some (10 * x + y, rest)
    | _, _ => none
  | _ => none

/-- Models Go time.Parse with layout 20060102-150405: four year digits,
two month digits, two day digits, a dash, then hours, minutes and seconds
of two digits each, with the ranges Go validates (month 1-12, day within
the month, hour below 24, minute and second below 60) and no trailing
characters. -/
def parseStamp (l : List Char) : Option DateTime :=
  match read2 l with
  | none => none
  | some (y1, l) =>
    match read2 l with
    | none => none
    | some (y2, l) =>
      match read2 l with
      | none => none
      | some (M, l) =>
        match read2 l with
        | none => none
        | some (d, l) =>
          match l with
          | '-' :: l =>
            match read2 l with
            | none => none
            | some (h, l) =>
              match read2 l with
              | none => none
              | some (mi, l) =>
                match read2 l with
                | none => none
                | some (sec, l) =>
                  if l = [] then
                    let y := 100 * y1 + y2
                    if 1 ≤ M && M ≤ 12 && 1 ≤ d && d ≤ daysInMonth y M &&
                        h ≤ 23 && mi ≤ 59 && sec ≤ 59 then
                      some { year := y, month := M, day := d, hour := h, minute := mi, second := sec }
                    else none
                  else none
          | _ => none

/-- Stamp string the code extracts from a file name:
strings.TrimPrefix(filepath.Ext(filename), ".") (logger.go line 112);
empty when Ext is empty. -/
def codeStampOf (name : String) : List Char :=
  (lastDotSuffix name.data).getD []

/-- Per-file decision of the loop body of removeOldFiles
(logger.go lines 96-125): directories are skipped, zero-size files are
deleted, otherwise the stamp must parse and be older than the retention
window. -/
def codeDeletes (maxAgeSecs now : Nat) (f : FileInfo) : Bool :=
  if f.isDir then false
  else if f.size = 0 then true
  else
    match parseStamp (codeStampOf f.fname) with
    | none => false
    | some ts => decide (dtToSecs ts + maxAgeSecs < now)

/-- The loop of removeOldFiles over the glob result, collecting the names
it removes, in order.  Warned-and-skipped files contribute nothing. -/
def removeLoop (maxAgeSecs now : Nat) : List FileInfo → List String
  | [] => []
  | f :: rest =>
    if codeDeletes maxAgeSecs now f then f.fname :: removeLoop maxAgeSecs now rest
    else removeLoop maxAgeSecs now rest

/-- removeOldFiles (logger.go lines 90-128) over a directory snapshot:
glob the siblings of path, then run the deletion loop.  The early return
on an os.Stat error is not modelled: in a consistent snapshot every
globbed file stats successfully. -/
def removeOldFiles (path : String) (maxAgeSecs now : Nat)
    (files : List FileInfo) : List String :=
  removeLoop maxAgeSecs now (files.filter (fun f => globMatch path f.fname))

/-- Split a character list on dots, as the groups of the spec phrase
final dot-separated suffix. -/
def splitOnDot : List Char → List (List Char)
  | [] => [[]]
  | c :: rest =>
    if c = '.' then [] :: splitOnDot rest
    else
      match splitOnDot rest with
      | [] => [[c]]
      | g :: gs => (c :: g) :: gs

/-- Last element of a list of groups. -/
def lastGroup : List (List Char) → List Char
  | [] => []
  | [g] => g
  | _ :: gs => lastGroup gs

/-- Modelled from the spec: the final dot-separated suffix of a file name
(the last group of the name split on dots). -/
def specSuffixOf (name : String) : List Char :=
  lastGroup (splitOnDot name.data)

/-- Modelled from the spec: the pruning policy of section 4.2.  A sibling
is deleted exactly when it matches the glob, is not a directory, and is
either of zero size or carries a final dot-separated suffix that parses as
a timestamp with parsed + max age before now. -/
def specShouldDelete (path : String) (maxAgeSecs now : Nat) (f : FileInfo) : Bool :=
  globMatch path f.fname && !f.isDir &&
    (f.size = 0 ||
      match parseStamp (specSuffixOf f.fname) with
      | none => false
      | some ts => decide (dtToSecs ts + maxAgeSecs < now))

/-! Section: Lemmas about the run loop -/

/-- No step of a loop iteration writes the lastChangedAt field: every
branch of startIter carries it through unchanged. -/
theorem startIter_lastChangedAt (mode : RestartLevel) (att now : Int) (e : IterEnv)
    (s : TreeState) : (startIter mode att now e s).1.lastChangedAt = s.lastChangedAt := by
  simp only [startIter]
  repeat' split
  all_goals rfl

/-- Each iteration makes at most one launch attempt. -/
theorem startIter_spawn_le_one (mode : RestartLevel) (att now : Int) (e : IterEnv)
    (s : TreeState) : (startIter mode att now e s).2.1 ≤ 1 := by
  simp only [startIter]
  repeat' split
  all_goals simp

/-- When a limited-policy iteration decides to keep looping, it made
exactly one launch attempt, incremented runCount by one, and the new
runCount is still below the attempt bound. -/
theorem startIter_limited_continue (att now : Int) (e : IterEnv) (s : TreeState)
    (h : (startIter .limitedRestart att now e s).2.2 = false) :
    (startIter .limitedRestart att now e s).2.1 = 1 ∧
    (startIter .limitedRestart att now e s).1.runCount = s.runCount + 1 ∧
    s.runCount + 1 < att := by
  simp only [startIter] at h ⊢
  split_ifs at h ⊢ <;> simp_all

/-- Spawn bound of the loop under the limited policy, relative to the
runCount already accumulated. -/
theorem startLoop_limited_bound (att now : Int) :
    ∀ (envs : List IterEnv) (s : TreeState),
    ((startLoop .limitedRestart att now envs s).2 : Int) ≤ max (att - s.runCount) 1 := by
  intro envs
  induction envs with
  | nil =>
    intro s
    simp [startLoop]
  | cons e rest ih =>
    intro s
    simp only [startLoop]
    rcases hit : startIter .limitedRestart att now e s with ⟨s1, n, ex⟩
    cases ex with
    | true =>
      have := startIter_spawn_le_one .limitedRestart att now e s
      rw [hit] at this
      simp only at this ⊢
      omega
    | false =>
      have hc := startIter_limited_continue att now e s (by rw [hit])
      rw [hit] at hc
      simp only at hc ⊢
      obtain ⟨h1, h2, h3⟩ := hc
      have hrec := ih s1
      rw [h2] at hrec
      omega

/-- Under the never policy the decision of every iteration is to stop, so
the loop exits as soon as one iteration runs. -/
theorem startIter_never_exits (att now : Int) (e : IterEnv) (s : TreeState) :
    (startIter .neverRestart att now e s).2.2 = true := by
  simp only [startIter]
  split_ifs <;> simp_all

/-- Under the never policy a loop that processes at least one iteration
makes at most one launch attempt. -/
theorem startLoop_never_le_one (att now : Int) (e : IterEnv) (rest : List IterEnv)
    (s : TreeState) : (startLoop .neverRestart att now (e :: rest) s).2 ≤ 1 := by
  simp only [startLoop]
  rcases hit : startIter .neverRestart att now e s with ⟨s1, n, ex⟩
  have hex := startIter_never_exits att now e s
  rw [hit] at hex
  simp only at hex
  subst hex
  have := startIter_spawn_le_one .neverRestart att now e s
  rw [hit] at this
  simpa using this

/-- An iteration that begins with fullStop set exits immediately to the
stopped state without a launch attempt. -/
theorem startIter_fullStop (mode : RestartLevel) (att now : Int) (e : IterEnv)
    (s : TreeState) (h : s.fullStop = true) :
    startIter mode att now e s = ({ s with currState := .stopped }, 0, true) := by
  simp only [startIter, h]
  simp

/-- The loop never writes lastChangedAt. -/
theorem startLoop_lastChangedAt (mode : RestartLevel) (att now : Int) :
    ∀ (envs : List IterEnv) (s : TreeState),
    (startLoop mode att now envs s).1.lastChangedAt = s.lastChangedAt := by
  intro envs
  induction envs with
  | nil => intro s; rfl
  | cons e rest ih =>
    intro s
    simp only [startLoop]
    rcases hit : startIter mode att now e s with ⟨s1, n, ex⟩
    have hl := startIter_lastChangedAt mode att now e s
    rw [hit] at hl
    simp only at hl
    cases ex with
    | true => simpa using hl
    | false =>
      simp only
      rw [ih s1]
      exact hl

/-- A loop entered with fullStop already set exits at once. -/
theorem startLoop_observes_fullStop (mode : RestartLevel) (att now : Int) (e : IterEnv)
    (rest : List IterEnv) (s : TreeState) (h : s.fullStop = true) :
    startLoop mode att now (e :: rest) s = ({ s with currState := .stopped }, 0) := by
  simp only [startLoop, startIter_fullStop mode att now e s h]

/-- A Start invocation under the never policy spawns exactly once and ends
in the stopped state, whatever the prior state and whatever requests
arrive, because Start first clears fullStop and runCount. -/
theorem treeStart_never_one (att now : Int) (e : IterEnv) (rest : List IterEnv)
    (s : TreeState) :
    (treeStart .neverRestart att now (e :: rest) s).2 = 1 ∧
    (treeStart .neverRestart att now (e :: rest) s).1.currState = .stopped := by
  simp only [treeStart, startLoop, startIter]
  split_ifs <;> simp_all

/-- Stop on a record whose channel is open: fullStop is set and the signal
slot is full afterwards (a fresh send or a coalesced duplicate), and the
call returns normally.  The function is total, reflecting that the select
with a default branch never blocks. -/
theorem StopM_ok (s : TreeState) (h : s.stopChan.closed = false) :
    StopM s = .ok { s with
      fullStop := true
      stopChan := StopChan.mk true false } := by
  rcases s with ⟨fs, rc, cs, sa, lc, b, cl⟩
  simp only at h
  subst h
  cases b <;> simp [StopM, chanTrySend]

/-! Section: Lemmas about suffix extraction for pruning -/

/-- List.contains is membership, negated form. -/
theorem contains_eq_false_iff (l : List Char) (c : Char) :
    l.contains c = false ↔ c ∉ l := by
  rw [← Bool.not_eq_true, not_iff_not]
  exact List.elem_iff

/-- splitOnDot always yields at least one group. -/
theorem splitOnDot_ne_nil : ∀ l : List Char, splitOnDot l ≠ [] := by
  intro l
  induction l with
  | nil => simp [splitOnDot]
  | cons c rest ih =>
    simp only [splitOnDot]
    split
    · simp
    · rcases h : splitOnDot rest with _ | ⟨g, gs⟩
      · simp
      · simp

/-- A dot-free list is a single group. -/
theorem splitOnDot_no_dot (l : List Char) (h : '.' ∉ l) : splitOnDot l = [l] := by
  induction l with
  | nil => rfl
  | cons c rest ih =>
    simp only [List.mem_cons, not_or] at h
    simp only [splitOnDot]
    rw [if_neg (by simpa using fun he => h.1 he.symm)]
    rw [ih h.2]

/-- A list containing a dot splits into at least two groups. -/
theorem splitOnDot_len_ge_two (l : List Char) (h : '.' ∈ l) :
    2 ≤ (splitOnDot l).length := by
  induction l with
  | nil => simp at h
  | cons c rest ih =>
    simp only [splitOnDot]
    by_cases hc : c = '.'
    · rw [if_pos hc]
      have hl : 0 < (splitOnDot rest).length := List.length_pos.mpr (splitOnDot_ne_nil rest)
      simp only [List.length_cons]
      omega
    · rw [if_neg hc]
      have hr : '.' ∈ rest := by
        rcases List.mem_cons.mp h with h1 | h1
        · exact absurd h1.symm hc
        · exact h1
      rcases hs : splitOnDot rest with _ | ⟨g, gs⟩
      · exact absurd hs (splitOnDot_ne_nil rest)
      · have := ih hr
        rw [hs] at this
        simpa using this

/-- Stepping lastGroup over a nonempty tail. -/
theorem lastGroup_cons_of_ne_nil (g : List Char) (gs : List (List Char)) (h : gs ≠ []) :
    lastGroup (g :: gs) = lastGroup gs := by
  cases gs with
  | nil => exact absurd rfl h
  | cons g2 gs2 => rfl

/-- The last dot-separated group of a list that decomposes at its final
dot is the part after that dot. -/
theorem lastGroup_split_append (b : List Char) (hb : '.' ∉ b) :
    ∀ a : List Char, lastGroup (splitOnDot (a ++ '.' :: b)) = b := by
  intro a
  induction a with
  | nil =>
    simp only [List.nil_append, splitOnDot, if_pos rfl]
    rw [splitOnDot_no_dot b hb]
    rfl
  | cons c a ih =>
    simp only [List.cons_append, splitOnDot]
    by_cases hc : c = '.'
    · rw [if_pos hc]
      rw [lastGroup_cons_of_ne_nil _ _ (splitOnDot_ne_nil _)]
      exact ih
    · rw [if_neg hc]
      rcases hs : splitOnDot (a ++ '.' :: b) with _ | ⟨g, gs⟩
      · exact absurd hs (splitOnDot_ne_nil _)
      · have hlen := splitOnDot_len_ge_two (a ++ '.' :: b) (by simp)
        rw [hs] at hlen
        simp at hlen
        have hgs : gs ≠ [] := by
          intro hgs
          rw [hgs] at hlen
          simp at hlen
        rw [lastGroup_cons_of_ne_nil _ _ hgs]
        have := ih
        rw [hs, lastGroup_cons_of_ne_nil g gs hgs] at this
        exact this

/-- A dot-free list has no last-dot suffix. -/
theorem lastDotSuffix_none (b : List Char) (hb : '.' ∉ b) : lastDotSuffix b = none := by
  induction b with
  | nil => rfl
  | cons c rest ih =>
    simp only [List.mem_cons, not_or] at hb
    simp only [lastDotSuffix]
    rw [ih hb.2]
    simp only
    rw [if_neg]
    simp only [Bool.and_eq_true, decide_eq_true_eq, Bool.not_eq_true]
    intro hcontra
    exact hb.1 hcontra.1.symm

/-- The last-dot suffix of a list decomposed at its final dot, when no
slash follows that dot, is exactly the part after the dot. -/
theorem lastDotSuffix_append (b : List Char) (hb : '.' ∉ b) (hs : '/' ∉ b) :
    ∀ a : List Char, lastDotSuffix (a ++ '.' :: b) = some b := by
  intro a
  induction a with
  | nil =>
    simp only [List.nil_append, lastDotSuffix]
    rw [lastDotSuffix_none b hb]
    simp only
    rw [if_pos]
    simp only [Bool.and_eq_true, decide_eq_true_eq, Bool.not_eq_true]
    exact ⟨trivial, by simpa using hs⟩
  | cons c a ih =>
    simp only [List.cons_append, lastDotSuffix]
    rw [show (a ++ '.' :: b : List Char) = a.append ('.' :: b) from rfl] at ih
    rw [ih]

/-- Every list containing a dot decomposes at its last dot. -/
theorem last_dot_decomp (l : List Char) (h : '.' ∈ l) :
    ∃ r1 r2, l = r1 ++ '.' :: r2 ∧ '.' ∉ r2 := by
  induction l with
  | nil => simp at h
  | cons c rest ih =>
    by_cases hr : '.' ∈ rest
    · obtain ⟨r1, r2, heq, hnd⟩ := ih hr
      exact ⟨c :: r1, r2, by rw [heq]; rfl, hnd⟩
    · have hc : c = '.' := by
        rcases List.mem_cons.mp h with h1 | h1
        · exact h1.symm
        · exact absurd h1 hr
      exact ⟨[], rest, by rw [hc]; rfl, hr⟩

/-- On a glob-matched sibling the stamp the code extracts through
filepath.Ext coincides with the final dot-separated suffix named by the
spec: the glob guarantees a dot after the path prefix and no slash after
it. -/
theorem stamp_bridge (path name : String) (h : globMatch path name = true) :
    codeStampOf name = specSuffixOf name := by
  unfold globMatch at h
  simp only [Bool.and_eq_true, Bool.not_eq_true] at h
  have hdot := h.2.1
  have hslash := h.2.2
  set rest := name.data.drop path.data.length with hrest
  have hmem : '.' ∈ rest := List.elem_iff.mp hdot
  have hnos : '/' ∉ rest := (contains_eq_false_iff rest '/').mp (by simpa using hslash)
  obtain ⟨r1, r2, heq, hnd⟩ := last_dot_decomp rest hmem
  have hns2 : '/' ∉ r2 := by
    intro hmem2
    exact hnos (by rw [heq]; simp [hmem2])
  have hdata : name.data = name.data.take path.data.length ++ (r1 ++ '.' :: r2) := by
    rw [← heq, hrest]
    simp
  have hcode : codeStampOf name = r2 := by
    unfold codeStampOf
    rw [hdata, ← List.append_assoc, lastDotSuffix_append r2 hnd hns2]
    rfl
  have hspec : specSuffixOf name = r2 := by
    unfold specSuffixOf
    rw [hdata, ← List.append_assoc, lastGroup_split_append r2 hnd]
  rw [hcode, hspec]

/-- Membership in the deletion loop's output is per-file. -/
theorem removeLoop_mem (maxAge now : Nat) (n : String) :
    ∀ l : List FileInfo,
    n ∈ removeLoop maxAge now l ↔ ∃ f ∈ l, f.fname = n ∧ codeDeletes maxAge now f = true := by
  intro l
  induction l with
  | nil => simp [removeLoop]
  | cons f rest ih =>
    simp only [removeLoop]
    by_cases hd : codeDeletes maxAge now f = true
    · rw [if_pos hd]
      simp only [List.mem_cons, ih]
      constructor
      · rintro (h1 | h1)
        · exact ⟨f, Or.inl rfl, h1.symm, hd⟩
        · obtain ⟨g, hg, hn, hc⟩ := h1
          exact ⟨g, Or.inr hg, hn, hc⟩
      · rintro ⟨g, (hg | hg), hn, hc⟩
        · subst hg
          exact Or.inl hn.symm
        · exact Or.inr ⟨g, hg, hn, hc⟩
    · rw [if_neg hd]
      rw [ih]
      constructor
      · rintro ⟨g, hg, hn, hc⟩
        exact ⟨g, List.mem_cons_of_mem f hg, hn, hc⟩
      · rintro ⟨g, hgmem, hn, hc⟩
        rcases List.mem_cons.mp hgmem with hg | hg
        · rw [hg] at hc
          exact absurd hc hd
        · exact ⟨g, hg, hn, hc⟩

/-- On glob-matched files the per-file decision of the code agrees with
the spec predicate. -/
theorem spec_eq_code_on_match (path : String) (maxAge now : Nat) (f : FileInfo)
    (h : globMatch path f.fname = true) :
    specShouldDelete path maxAge now f = codeDeletes maxAge now f := by
  unfold specShouldDelete codeDeletes
  rw [h, ← stamp_bridge path f.fname h]
  cases hd : f.isDir <;> by_cases hz : f.size = 0 <;>
    simp [hz] <;> rcases parseStamp (codeStampOf f.fname) <;> simp

/-! Section: Concrete records used by witnesses and counterexamples -/

/-- Lines of the config file the repository's own TestLoadConfigUser
exercises: a Name line, a Command line, then a User line. -/
def userTreeLines : List String :=
  ["Name TestUser", "Command sleep infinity", "User myuser"]

/-- A record whose run loop is live: state running, two launches recorded,
a full stop requested. -/
def runningRec : TreeState :=
  { fullStop := true
    runCount := 2
    currState := .running
    startedAt := 0
    lastChangedAt := 0
    stopChan := StopChan.mk false false }

/-- A service config with the never restart policy. -/
def cfgA : Config :=
  { name := "A"
    originFile := "/etc/forest.d/a.tree"
    command := "sleep 300"
    user := "op"
    environmentFile := ""
    logFile := "/var/log/homelab/A.log"
    maxLogAge := 7
    restart := .neverRestart
    restartAttempts := 3
    restartDelay := 3000000000 }

/-- The registry record for cfgA. -/
def recA : TreeRec := { cfg := cfgA, st := newTreeState 0 }

/-- A file system in which every open fails, as seen by the watcher for a
file that has just been removed. -/
def missingFS : String → Option (List String) := fun _ => none

/-- The volatile state right after Stop() on a fresh record: fullStop set,
stop signal buffered. -/
def exStopped : TreeState :=
  { fullStop := true
    runCount := 0
    currState := .stopped
    startedAt := 0
    lastChangedAt := 0
    stopChan := StopChan.mk true false }

/-- The volatile state right after Destroy() on a fresh record. -/
def exDestroyed : TreeState :=
  { newTreeState 0 with fullStop := true, stopChan := StopChan.mk true true }

/-! Section: Claims -/

/-- C1: the claim says a User line sets the User field and leaves Command
at the value of the Command line.  The code (config.go line 75-76) instead
assigns the User value to the Command field: on the repository's own
user.tree input the loader returns Command myuser and User op, so the User
line clobbers Command and never sets User.  This contradicts the
repository's TestLoadConfigUser and its README table, so the code, not the
claim, is wrong. -/
theorem claimC1_user_value_overwrites_command :
    (loadConfigLines "testdata/user.tree" userTreeLines).map
      (fun c => (c.command, c.user)) = .ok ("myuser", "op") := by
  rfl

/-- C2 counterexample: start() invoked on a record whose loop state shows
running with runCount two and fullStop set resets runCount to zero and
fullStop to false, so the claimed guard that leaves the running loop's
counters untouched does not exist. -/
theorem claimC2_counterexample :
    runningRec.currState = .running ∧ runningRec.runCount = 2 ∧
    runningRec.fullStop = true ∧
    (treeStart .alwaysRestart 3 0 [] runningRec).1.runCount = 0 ∧
    (treeStart .alwaysRestart 3 0 [] runningRec).1.fullStop = false ∧
    ¬ (treeStart .alwaysRestart 3 0 [] runningRec).1.runCount = runningRec.runCount := by
  decide

/-- C2 (amended): start() is not guarded by the record's state.  Whatever
the current state, entry unconditionally clears fullStop and resets
runCount to zero (tree.go lines 71-74), and a new invocation proceeds to
spawn: after one processed iteration the launch count is one and runCount
reflects only the new invocation. -/
theorem claimC2_amended_start_not_guarded (mode : RestartLevel) (att now : Int)
    (s : TreeState) :
    (treeStart mode att now [] s).1 = { s with fullStop := false, runCount := 0 } ∧
    (treeStart mode att now [quietEnv] s).2 = 1 ∧
    (treeStart mode att now [quietEnv] s).1.runCount = 1 := by
  refine ⟨rfl, ?_, ?_⟩ <;>
    · simp only [treeStart, startLoop, startIter, quietEnv]
      split_ifs <;> simp_all [startLoop]

/-- C3: on a remove event the watcher reloads the config of the removed
file to recover the name; since the file is gone the load always fails,
the removal is logged and skipped, and the registry keeps the record, so
a status lookup still finds it.  The record is never destroyed, contrary
to the claim. -/
theorem claimC3_remove_event_never_removes (fs : String → Option (List String))
    (reg : List (String × TreeRec)) (filename : String) (h : fs filename = none) :
    removeTreeM fs reg filename = (reg, false) := by
  simp only [removeTreeM, loadConfigFS, h]

/-- C3 witness: a registry holding service A and a remove event for its
already-deleted origin file leave the registry unchanged. -/
theorem claimC3_witness :
    missingFS "/etc/forest.d/a.tree" = none ∧
    removeTreeM missingFS [("A", recA)] "/etc/forest.d/a.tree" = ([("A", recA)], false) := by
  exact ⟨rfl, claimC3_remove_event_never_removes missingFS [("A", recA)] "/etc/forest.d/a.tree" rfl⟩

/-- C4 counterexample: RestartAttempts 0 is accepted by the loader, yet a
start() under the limited policy with zero configured attempts still
launches the child once, exceeding the claimed bound of zero. -/
theorem claimC4_counterexample :
    (loadConfigLines "f.tree" ["Command sleep 1", "Restart limited", "RestartAttempts 0"]).map
      (fun c => (c.restart, c.restartAttempts)) = .ok (.limitedRestart, 0) ∧
    (treeStart .limitedRestart 0 0 [quietEnv] (newTreeState 0)).2 = 1 ∧
    ¬ ((treeStart .limitedRestart 0 0 [quietEnv] (newTreeState 0)).2 : Int) ≤ 0 := by
  refine ⟨rfl, rfl, ?_⟩
  decide

/-- C4 (amended): under the limited policy a single start() invocation
launches the child at most max(restart_attempts, 1) times, whatever
requests arrive at the loop's suspension points; in particular at most
restart_attempts times whenever restart_attempts is at least one. -/
theorem claimC4_amended_limited_bound (att now : Int) (envs : List IterEnv)
    (s : TreeState) :
    ((treeStart .limitedRestart att now envs s).2 : Int) ≤ max att 1 := by
  have := startLoop_limited_bound att now envs { s with fullStop := false, runCount := 0 }
  simp only [treeStart] at *
  omega

/-- C5 counterexample: a start() at instant five drives the record through
stopped, restarting, running and back to stopped (startedAt records the
launch instant five), yet lastChangedAt still holds its creation value
zero: the transitions did not update it. -/
theorem claimC5_counterexample :
    (treeStart .neverRestart 3 5 [quietEnv] (newTreeState 0)).1.currState = .stopped ∧
    (treeStart .neverRestart 3 5 [quietEnv] (newTreeState 0)).1.startedAt = 5 ∧
    (treeStart .neverRestart 3 5 [quietEnv] (newTreeState 0)).1.lastChangedAt = 0 ∧
    ¬ (treeStart .neverRestart 3 5 [quietEnv] (newTreeState 0)).1.lastChangedAt = 5 := by
  decide

/-- C5 (amended): lastChangedAt is written only by NewTree at record
creation; no state transition performed by start(), the run loop, or
stop() ever updates it. -/
theorem claimC5_amended_last_change_constant (mode : RestartLevel) (att now : Int)
    (envs : List IterEnv) (s s2 s2x : TreeState) (h : StopM s2 = .ok s2x) :
    (treeStart mode att now envs s).1.lastChangedAt = s.lastChangedAt ∧
    s2x.lastChangedAt = s2.lastChangedAt := by
  constructor
  · simp only [treeStart]
    rw [startLoop_lastChangedAt]
  · simp only [StopM] at h
    rcases hc : chanTrySend s2.stopChan with p | c
    · rw [hc] at h
      exact absurd h (by simp)
    · rw [hc] at h
      simp only [Except.ok.injEq] at h
      rw [← h]

/-- C5 witness: instantiation of the amended claim at a concrete run and
a concrete Stop call. -/
theorem claimC5_witness :
    (treeStart .neverRestart 3 5 [quietEnv] (newTreeState 0)).1.lastChangedAt
      = (newTreeState 0).lastChangedAt ∧
    exStopped.lastChangedAt = (newTreeState 0).lastChangedAt := by
  exact claimC5_amended_last_change_constant .neverRestart 3 5 [quietEnv]
    (newTreeState 0) (newTreeState 0) exStopped rfl

/-- C7: a restart command for a service whose policy is never returns the
error without delivering a signal or changing any state (the registry is
returned untouched), and a run loop under the never policy launches at
most once and, once its single child exit is observed, leaves to the
stopped state without respawning. -/
theorem claimC7_restart_never_rejected (reg : List (String × TreeRec)) (name : String)
    (t : TreeRec) (h1 : lookupTree reg name = some t)
    (h2 : t.cfg.restart = .neverRestart) :
    RestartTreeM reg name = .ok (some "cannot restart", reg) ∧
    (∀ (att now : Int) (envs : List IterEnv) (s : TreeState),
      (treeStart .neverRestart att now envs s).2 ≤ 1) ∧
    (∀ (att now : Int) (e : IterEnv) (rest : List IterEnv) (s : TreeState),
      (treeStart .neverRestart att now (e :: rest) s).2 = 1 ∧
      (treeStart .neverRestart att now (e :: rest) s).1.currState = .stopped) := by
  refine ⟨?_, ?_, ?_⟩
  · simp only [RestartTreeM, h1]
    rw [if_pos h2]
  · intro att now envs s
    cases envs with
    | nil => simp [treeStart, startLoop]
    | cons e rest => exact startLoop_never_le_one att now e rest _
  · intro att now e rest s
    exact treeStart_never_one att now e rest s

/-- C7 witness: instantiation at a registry holding the never-policy
service A. -/
theorem claimC7_witness :
    RestartTreeM [("A", recA)] "A" = .ok (some "cannot restart", [("A", recA)]) ∧
    (treeStart .neverRestart 3 0 [] (newTreeState 0)).2 ≤ 1 ∧
    ((treeStart .neverRestart 3 0 [quietEnv] (newTreeState 0)).2 = 1 ∧
      (treeStart .neverRestart 3 0 [quietEnv] (newTreeState 0)).1.currState = .stopped) := by
  exact ⟨(claimC7_restart_never_rejected [("A", recA)] "A" recA rfl rfl).1,
    (claimC7_restart_never_rejected [("A", recA)] "A" recA rfl rfl).2.1 3 0 [] (newTreeState 0),
    (claimC7_restart_never_rejected [("A", recA)] "A" recA rfl rfl).2.2 3 0 quietEnv [] (newTreeState 0)⟩

/-- C8: pruning deletes exactly the siblings matching the glob that are
non-directory files of zero size or non-directory files whose final
dot-separated suffix parses as a timestamp with parsed plus max age before
now; directories and files with an unparseable suffix are kept. -/
theorem claimC8_prune_exact (path : String) (maxAgeSecs now : Nat)
    (files : List FileInfo) (n : String) :
    n ∈ removeOldFiles path maxAgeSecs now files ↔
    ∃ f ∈ files, f.fname = n ∧ specShouldDelete path maxAgeSecs now f = true := by
  unfold removeOldFiles
  rw [removeLoop_mem]
  constructor
  · rintro ⟨f, hf, hn, hc⟩
    have hg := (List.mem_filter.mp hf).2
    exact ⟨f, (List.mem_filter.mp hf).1, hn,
      by rw [spec_eq_code_on_match path maxAgeSecs now f hg]; exact hc⟩
  · rintro ⟨f, hf, hn, hc⟩
    have hg : globMatch path f.fname = true := by
      unfold specShouldDelete at hc
      simp only [Bool.and_eq_true] at hc
      exact hc.1.1
    refine ⟨f, List.mem_filter.mpr ⟨hf, hg⟩, hn, ?_⟩
    rw [← spec_eq_code_on_match path maxAgeSecs now f hg]
    exact hc

/-- C9 counterexample: after a stop() delivered while no child is alive,
fullStop is set, yet the next start() spawns a child (launch count one,
not zero): the fresh invocation clears fullStop instead of observing it,
contrary to the claim that the next start() exits to the stopped state
without spawning. -/
theorem claimC9_counterexample :
    StopM (newTreeState 0) = .ok exStopped ∧
    exStopped.fullStop = true ∧
    (treeStart .neverRestart 3 0 [quietEnv] exStopped).2 = 1 ∧
    ¬ (treeStart .neverRestart 3 0 [quietEnv] exStopped).2 = 0 := by
  refine ⟨rfl, rfl, rfl, by decide⟩

/-- C9 (amended): a stop signal with no child alive is absorbed without
blocking (the coalescing send always returns, leaving fullStop set and the
slot full); a subsequent iteration of an in-progress loop observes
fullStop and exits to the stopped state without spawning; but a new
start() invocation clears fullStop first and spawns a child. -/
theorem claimC9_amended_stop_absorbed (s1 : TreeState) (h1 : s1.stopChan.closed = false)
    (mode : RestartLevel) (att now : Int) (e : IterEnv) (rest : List IterEnv)
    (s2 : TreeState) (h2 : s2.fullStop = true) :
    StopM s1 = .ok { s1 with fullStop := true, stopChan := StopChan.mk true false } ∧
    startLoop mode att now (e :: rest) s2 = ({ s2 with currState := .stopped }, 0) ∧
    (treeStart .neverRestart att now [e]
      { s1 with fullStop := true, stopChan := StopChan.mk true false }).2 = 1 := by
  refine ⟨StopM_ok s1 h1, startLoop_observes_fullStop mode att now e rest s2 h2, ?_⟩
  exact (treeStart_never_one att now e [] _).1

/-- C9 witness: instantiation at a fresh record and the stopped record. -/
theorem claimC9_witness :
    StopM (newTreeState 0) = .ok { newTreeState 0 with
      fullStop := true
      stopChan := StopChan.mk true false } ∧
    startLoop .alwaysRestart 3 0 [quietEnv] exStopped
      = ({ exStopped with currState := .stopped }, 0) ∧
    (treeStart .neverRestart 3 0 [quietEnv] { newTreeState 0 with
      fullStop := true
      stopChan := StopChan.mk true false }).2 = 1 := by
  exact claimC9_amended_stop_absorbed (newTreeState 0) rfl .alwaysRestart 3 0
    quietEnv [] exStopped rfl

/-- C10: destroy() closes the stop channel after the final stop signal;
any later stop(), restart() or destroy() on the record reaches a send on
(or, behind the panicking send of its embedded stop, a close of) the
closed channel and panics instead of returning an error value. -/
theorem claimC10_ops_after_destroy_panic (s : TreeState)
    (h : s.stopChan.closed = false) :
    DestroyM s = .ok { s with fullStop := true, stopChan := StopChan.mk true true } ∧
    StopM { s with fullStop := true, stopChan := StopChan.mk true true }
      = .error .sendOnClosedChannel ∧
    RestartM { s with fullStop := true, stopChan := StopChan.mk true true }
      = .error .sendOnClosedChannel ∧
    DestroyM { s with fullStop := true, stopChan := StopChan.mk true true }
      = .error .sendOnClosedChannel := by
  refine ⟨?_, ?_, ?_, ?_⟩
  · simp only [DestroyM, StopM_ok s h, chanClose]
    simp
  · simp [StopM, chanTrySend]
  · simp [RestartM, chanTrySend]
  · simp [DestroyM, StopM, chanTrySend]

/-- C10 witness: destroy a fresh record, then each operation panics. -/
theorem claimC10_witness :
    DestroyM (newTreeState 0) = .ok exDestroyed ∧
    StopM exDestroyed = .error .sendOnClosedChannel ∧
    RestartM exDestroyed = .error .sendOnClosedChannel ∧
    DestroyM exDestroyed = .error .sendOnClosedChannel := by
  exact claimC10_ops_after_destroy_panic (newTreeState 0) rfl

end Pine
